import Mathlib

/-!
Verification of the secp256r1 (NIST P-256) key and signature codec utilities
(`system/crypto/secp256r1/utils.go`).

Byte strings are modelled as `List ℕ` (each entry a byte value), big integers
as `ℕ`/`ℤ`.  Fallible functions return an explicit result type; a Go runtime
panic is modelled as a distinguished outcome.  Fuel-driven recursion is used
where Go loops on the magnitude of a number, so that every definition reduces
inside the kernel.
-/

set_option maxRecDepth 10000

namespace Secp256r1

/-- The prime modulus of the NIST P-256 base field, `elliptic.P256().Params().P`. -/
def P : ℕ := 115792089210356248762697446949407573530086143415290314195533631308867097853951

/-- The order of the NIST P-256 group, `elliptic.P256().Params().N`. -/
def N : ℕ := 115792089210356248762697446949407573529996955224135760342422259061068512044369

/-- The curve coefficient b of NIST P-256, `elliptic.P256().Params().B`. -/
def B : ℕ := 41058363725152142129326129780047268409114441015993725554835256314039467401291

/-- Big-endian interpretation of a byte list, as in `big.Int.SetBytes`. -/
def fromBytesBE (l : List ℕ) : ℕ := l.foldl (fun a b => a * 256 + b) 0

/-- Minimal big-endian byte list of a natural number, fuel-driven. -/
def natBytesAux : ℕ → ℕ → List ℕ
  | 0, _ => []
  | fuel + 1, n => if n = 0 then [] else natBytesAux fuel (n / 256) ++ [n % 256]

/-- Model of `big.Int.Bytes()`: minimal big-endian encoding of the absolute value,
empty for zero.  Fuel `n` suffices since the byte length of `n` is at most `n`. -/
def natBytes (n : ℕ) : List ℕ := natBytesAux n n

/-- Fuel-driven square-and-multiply; with fuel ≥ e it computes `b ^ e % m`. -/
def powModAux : ℕ → ℕ → ℕ → ℕ → ℕ
  | 0, _, _, m => 1 % m
  | fuel + 1, b, e, m =>
    if e = 0 then 1 % m
    else
      let r := powModAux fuel (b * b % m) (e / 2) m
      if e % 2 = 1 then b * r % m else r

/-- Modular exponentiation `b ^ e % m`. -/
def powMod (b e m : ℕ) : ℕ := powModAux e b e m

/-- Model of `big.Int.ModSqrt` for an odd prime modulus `p ≡ 3 (mod 4)` and an
argument `0 ≤ v < p` (the shape used by the source).  Go first computes the
Jacobi symbol of `v` and `p` and returns nil when it is `-1`; for a prime
modulus the Jacobi symbol is `-1` exactly when Euler's criterion gives
`v ^ ((p-1)/2) ≡ -1 (mod p)`.  Otherwise Go returns `v ^ ((p+1)/4) mod p`
(`modSqrt3Mod4Prime`). -/
def modSqrt (v p : ℕ) : Option ℕ :=
  if powMod v ((p - 1) / 2) p = p - 1 then none
  else some (powMod v ((p + 1) / 4) p)

/-- The distinct error returns of the two public-key parsing functions. -/
inductive KeyError
  | emptyPubKey      -- "pubkey string is empty"
  | xGeP             -- "pubkey X parameter is >= to P"
  | yGeP             -- "pubkey Y parameter is >= to P"
  | notOnCurve       -- "pubkey isn't on secp256k1 curve"
  | badByteLen       -- "parsePubKeyCompressed byteLen error"
  | badForm          -- "parsePubKeyCompressed compressed form error"
  | xDataError       -- "parsePubKeyCompressed x data error"
  | yDataError       -- "parsePubKeyCompressed y data error"
  | compNotOnCurve   -- "parsePubKeyCompressed IsOnCurve error"
  deriving DecidableEq

/-- Outcome of parsing a public key: a point, a typed error, or a Go runtime
panic (slice index out of range). -/
inductive PKResult
  | ok (x y : ℕ)
  | err (e : KeyError)
  | panic
  deriving DecidableEq

/-- Model of `elliptic.P256().IsOnCurve`: both coordinates in `[0, P)` and
`y² ≡ x³ - 3x + B (mod P)`. -/
def IsOnCurve (x y : ℕ) : Bool :=
  decide (x < P) && decide (y < P) &&
    decide ((y : ℤ) ^ 2 % (P : ℤ) = ((x : ℤ) ^ 3 - 3 * (x : ℤ) + (B : ℤ)) % (P : ℤ))

/-- The function `parsePubKey`: parse an uncompressed public key.  After the emptiness check
the Go code slices `pubKeyStr[1:33]`, which panics when the input holds fewer
than 33 bytes. -/
def parsePubKey (pubKeyStr : List ℕ) : PKResult :=
  if pubKeyStr.length = 0 then .err .emptyPubKey
  else if pubKeyStr.length < 33 then .panic
  else
    let x := fromBytesBE ((pubKeyStr.drop 1).take 32)
    let y := fromBytesBE (pubKeyStr.drop 33)
    if P ≤ x then .err .xGeP
    else if P ≤ y then .err .yGeP
    else if IsOnCurve x y then .ok x y
    else .err .notOnCurve

/-- The function `SerializePublicKeyCompressed`: a tag byte `Y.Bit(0) | 2`, then
`copy(compressed[1:], xBytes)` — the minimal bytes of X are copied to the
front of the 32-byte field, leaving any padding zeros at the end. -/
def SerializePublicKeyCompressed (x y : ℕ) : List ℕ :=
  let xBytes := (natBytes x).take 32
  (2 + y % 2) :: (xBytes ++ List.replicate (32 - xBytes.length) 0)

/-- The repository's `polynomial(B, P, x)`: `(x³ - 3x + B) mod P` computed with
`big.Int` operations (`Lsh x 1` plus `x` for `3x`, Euclidean `Mod`). -/
def polynomial (b p x : ℤ) : ℤ := (x * x * x - (x * 2 + x) + b) % p

/-- The function `parsePubKeyCompressed`: length and tag checks, X range check, Y recovery
by modular square root, parity fix `y.Neg(y).Mod(y, p)`, curve membership. -/
def parsePubKeyCompressed (data : List ℕ) : PKResult :=
  if data.length ≠ 1 + 32 then .err .badByteLen
  else if data.headI ≠ 2 ∧ data.headI ≠ 3 then .err .badForm
  else if P ≤ fromBytesBE (data.drop 1) then .err .xDataError
  else
    match modSqrt (polynomial (B : ℤ) (P : ℤ) (fromBytesBE (data.drop 1) : ℤ)).toNat P with
    | none => .err .yDataError
    | some y0 =>
      if IsOnCurve (fromBytesBE (data.drop 1))
          (if y0 % 2 ≠ data.headI % 2 then (-(y0 : ℤ) % (P : ℤ)).toNat else y0) then
        PKResult.ok (fromBytesBE (data.drop 1))
          (if y0 % 2 ≠ data.headI % 2 then (-(y0 : ℤ) % (P : ℤ)).toNat else y0)
      else .err .compNotOnCurve

/-- The helper `paddedAppend(size, dst, src)`: appends `size - len(src)` zero bytes (none
when `src` is too long) and then `src` to `dst`. -/
def paddedAppend (size : ℕ) (dst src : List ℕ) : List ℕ :=
  dst ++ List.replicate (size - src.length) 0 ++ src

/-- The function `SerializePublicKey`: `0x04 || X (32B, left-padded) || Y (32B, left-padded)`. -/
def SerializePublicKey (x y : ℕ) : List ℕ :=
  paddedAppend 32 (paddedAppend 32 [4] (natBytes x)) (natBytes y)

/-- Modelled from the spec: the constant `privateKeyECDSALength` is declared in
a repository file outside `src/`; the spec fixes the private-key wire format at
32 bytes. -/
def privateKeyECDSALength : ℕ := 32

/-- The function `SerializePrivateKey`: the scalar bytes left-padded to the fixed width. -/
def SerializePrivateKey (d : ℕ) : List ℕ :=
  paddedAppend privateKeyECDSALength [] (natBytes d)

/-- The function `IsLowS`: `s.Cmp(N >> 1) != 1`, that is `s ≤ ⌊N / 2⌋`. -/
def IsLowS (s : ℕ) : Bool := decide (s ≤ N / 2)

/-! ### Signature codec

Modelled from the spec: the `signatureECDSA` struct and the structured
encoding routines it is marshalled with live outside `src/` (the struct in a
sibling file of the package, the codec in the standard library).  The spec
fixes the format: a DER-style SEQUENCE of two INTEGERs, minimal-length
integer bodies, minimal-length length fields, with data trailing the SEQUENCE
handed back separately (and discarded by `UnmarshalECDSASignature`). -/

/-- Decode error kinds of the structured signature encoding. -/
inductive DerErr
  | truncated        -- ran out of bytes
  | badSeqTag        -- leading tag is not SEQUENCE (0x30)
  | badIntTag        -- element tag is not INTEGER (0x02)
  | indefiniteLen    -- indefinite length octet 0x80
  | leadingZeroLen   -- long-form length with superfluous leading zero
  | nonMinimalLen    -- long form used for a length below 0x80
  | badInt           -- empty or non-minimally-encoded integer body
  deriving DecidableEq

/-- Encode a length: short form below 0x80, otherwise `0x80 + count` and the
minimal big-endian bytes of the length. -/
def encodeLen (l : ℕ) : List ℕ :=
  if l < 128 then [l] else (128 + (natBytes l).length) :: natBytes l

/-- Two's-complement big-endian content bytes of an integer, minimal form:
a sign byte 0x00/0xff is prepended only when the top bit would be wrong. -/
def intContents (n : ℤ) : List ℕ :=
  if n < 0 then
    let bs := (natBytes (n.natAbs - 1)).map (fun b => 255 - b)
    if bs = [] ∨ bs.headI < 128 then 255 :: bs else bs
  else if n = 0 then [0]
  else
    let bs := natBytes n.toNat
    if 128 ≤ bs.headI then 0 :: bs else bs

/-- One INTEGER element: tag 0x02, length, content. -/
def encodeIntElem (n : ℤ) : List ℕ :=
  2 :: encodeLen (intContents n).length ++ intContents n

/-- The function `MarshalECDSASignature`: SEQUENCE (tag 0x30) of the two INTEGERs. -/
def MarshalECDSASignature (r s : ℤ) : List ℕ :=
  let body := encodeIntElem r ++ encodeIntElem s
  48 :: encodeLen body.length ++ body

/-- Parse a length field, enforcing minimality (the DER rules). -/
def parseLen : List ℕ → Except DerErr (ℕ × List ℕ)
  | [] => .error .truncated
  | b :: rest =>
    if b < 128 then .ok (b, rest)
    else
      let numBytes := b - 128
      if numBytes = 0 then .error .indefiniteLen
      else if rest.length < numBytes then .error .truncated
      else
        let l := fromBytesBE (rest.take numBytes)
        if (rest.take numBytes).headI = 0 then .error .leadingZeroLen
        else if l < 128 then .error .nonMinimalLen
        else .ok (l, rest.drop numBytes)

/-- Validity of an integer body: non-empty and minimally encoded. -/
def intOk (c : List ℕ) : Bool :=
  match c with
  | [] => false
  | [_] => true
  | b0 :: b1 :: _ => !(decide ((b0 = 0 ∧ b1 < 128) ∨ (b0 = 255 ∧ 128 ≤ b1)))

/-- Two's-complement value of a non-empty big-endian content list. -/
def decodeIntBE (c : List ℕ) : ℤ :=
  if 128 ≤ c.headI then (fromBytesBE c : ℤ) - 2 ^ (8 * c.length)
  else (fromBytesBE c : ℤ)

/-- Parse one INTEGER element from the front of a byte list. -/
def parseIntElem (l : List ℕ) : Except DerErr (ℤ × List ℕ) :=
  match l with
  | [] => .error .truncated
  | t :: rest =>
    if t ≠ 2 then .error .badIntTag
    else
      match parseLen rest with
      | .error e => .error e
      | .ok (len, rest1) =>
        if rest1.length < len then .error .truncated
        else if intOk (rest1.take len) then .ok (decodeIntBE (rest1.take len), rest1.drop len)
        else .error .badInt

/-- Parse the signature SEQUENCE: header, then two INTEGERs inside the body.
Extra elements inside the body and bytes after the SEQUENCE are tolerated;
the trailing bytes are returned alongside the two values. -/
def decodeSig (raw : List ℕ) : Except DerErr (ℤ × ℤ × List ℕ) :=
  match raw with
  | [] => .error .truncated
  | t :: rest =>
    if t ≠ 48 then .error .badSeqTag
    else
      match parseLen rest with
      | .error e => .error e
      | .ok (len, rest1) =>
        if rest1.length < len then .error .truncated
        else
          match parseIntElem (rest1.take len) with
          | .error e => .error e
          | .ok (r, body1) =>
            match parseIntElem body1 with
            | .error e => .error e
            | .ok (s, _) => .ok (r, s, rest1.drop len)

/-- Error kinds of `UnmarshalECDSASignature`. -/
inductive SigErr
  | decodeFailed (e : DerErr)  -- "failed unmashalling signature [...]"
  | rNotPositive               -- "invalid signature, R must be larger than zero"
  | sNotPositive               -- "invalid signature, S must be larger than zero"
  deriving DecidableEq

/-- The function `UnmarshalECDSASignature`: decode, then require `R.Sign() == 1` and
`S.Sign() == 1` (the rest of the input is discarded). -/
def UnmarshalECDSASignature (raw : List ℕ) : Except SigErr (ℤ × ℤ) :=
  match decodeSig raw with
  | .error e => .error (.decodeFailed e)
  | .ok (r, s, _) =>
    if r ≤ 0 then .error .rNotPositive
    else if s ≤ 0 then .error .sNotPositive
    else .ok (r, s)

/-! ### A certificate that the curve cubic `x³ - 3x + B` has no root mod P

Elements of `(ZMod P)[x] / (x³ - 3x + B)` are represented as coefficient
triples; `hT` computes `x ^ P` in that quotient ring by square-and-multiply.
If the cubic had a root `a`, evaluation at `a` would turn `hT` into `a ^ P = a`
(Fermat), and eliminating `a` from the resulting quadratic against the cubic
would force the constant `cFinal` to vanish — but it does not. -/

/-- Product of two coefficient triples, reduced by `x³ = 3x - B`. -/
def mulT (t u : ZMod P × ZMod P × ZMod P) : ZMod P × ZMod P × ZMod P :=
  let c0 := t.1 * u.1
  let c1 := t.1 * u.2.1 + t.2.1 * u.1
  let c2 := t.1 * u.2.2 + t.2.1 * u.2.1 + t.2.2 * u.1
  let c3 := t.2.1 * u.2.2 + t.2.2 * u.2.1
  let c4 := t.2.2 * u.2.2
  (c0 - (B : ZMod P) * c3, c1 + 3 * c3 - (B : ZMod P) * c4, c2 + 3 * c4)

/-- Fuel-driven square-and-multiply power of a coefficient triple. -/
def powT : ℕ → (ZMod P × ZMod P × ZMod P) → ℕ → (ZMod P × ZMod P × ZMod P)
  | 0, _, _ => (1, 0, 0)
  | fuel + 1, t, e =>
    if e = 0 then (1, 0, 0)
    else
      let r := powT fuel (mulT t t) (e / 2)
      if e % 2 = 1 then mulT t r else r

/-- The power `x ^ P` in the quotient ring. -/
def hT : ZMod P × ZMod P × ZMod P := powT P (0, 1, 0) P

/-- Evaluation of a coefficient triple at a point. -/
def evalT (a : ZMod P) (t : ZMod P × ZMod P × ZMod P) : ZMod P :=
  t.1 + t.2.1 * a + t.2.2 * a ^ 2

/-- Coefficients of `x ^ P - x` reduced mod the cubic. -/
def G0 : ZMod P := hT.1
def G1 : ZMod P := hT.2.1 - 1
def G2 : ZMod P := hT.2.2

/-- Linear coefficients after eliminating the quadratic term. -/
def rc1 : ZMod P := G2 * (G0 + 3 * G2) - G1 ^ 2
def rc0 : ZMod P := -((B : ZMod P) * G2 ^ 2 + G1 * G0)

/-- The constant left after fully eliminating a hypothetical common root. -/
def cFinal : ZMod P := 3 * rc0 * rc1 ^ 2 + (B : ZMod P) * rc1 ^ 3 - rc0 ^ 3

/-! ## Support lemmas: modular exponentiation -/

theorem powModAux_correct : ∀ (fuel b e m : ℕ), e ≤ fuel → powModAux fuel b e m = b ^ e % m := by
  intro fuel
  induction fuel with
  | zero =>
    intro b e m he
    have : e = 0 := Nat.le_zero.mp he
    subst this
    simp [powModAux]
  | succ f ih =>
    intro b e m he
    by_cases h0 : e = 0
    · subst h0; simp [powModAux]
    · have hdiv : e / 2 ≤ f := by omega
      have hrec := ih (b * b % m) (e / 2) m hdiv
      simp only [powModAux, h0, if_false]
      rw [hrec]
      have hbb : (b * b % m) ^ (e / 2) % m = (b * b) ^ (e / 2) % m := by
        rw [Nat.pow_mod, Nat.mod_mod_of_dvd _ dvd_rfl]
        rw [← Nat.pow_mod]
      have hp : (b * b) ^ (e / 2) = b ^ (2 * (e / 2)) := by
        rw [pow_mul, pow_two]
      rw [hbb, hp]
      by_cases hodd : e % 2 = 1
      · simp only [hodd, if_true]
        rw [Nat.mul_mod, Nat.mod_mod_of_dvd _ dvd_rfl, ← Nat.mul_mod]
        have : b * b ^ (2 * (e / 2)) = b ^ e := by
          rw [← pow_succ']
          congr 1
          omega
        rw [this]
      · have heven : e % 2 = 0 := by omega
        simp only [hodd, if_false]
        congr 1
        congr 1
        omega

theorem powMod_eq (b e m : ℕ) : powMod b e m = b ^ e % m :=
  powModAux_correct e b e m le_rfl

theorem powMod_lt (b e m : ℕ) (hm : 0 < m) : powMod b e m < m := by
  rw [powMod_eq]
  exact Nat.mod_lt _ hm

theorem zmod_pow_natCast (b e m : ℕ) : ((b : ZMod m)) ^ e = ((powMod b e m : ℕ) : ZMod m) := by
  rw [powMod_eq, ZMod.natCast_mod, Nat.cast_pow]

theorem pow_eq_one_of_powMod (p A e : ℕ) (h : powMod A e p % p = 1 % p) :
    ((A : ZMod p)) ^ e = 1 := by
  rw [zmod_pow_natCast, show (1 : ZMod p) = ((1 : ℕ) : ZMod p) from (Nat.cast_one).symm,
    ZMod.natCast_eq_natCast_iff']
  exact h

theorem pow_ne_one_of_powMod (p A e : ℕ) (h : ¬ powMod A e p % p = 1 % p) :
    ((A : ZMod p)) ^ e ≠ 1 := by
  rw [zmod_pow_natCast]
  intro hEq
  apply h
  apply (ZMod.natCast_eq_natCast_iff' (powMod A e p) 1 p).mp
  rw [hEq, Nat.cast_one]

theorem prime_204061199 : Nat.Prime 204061199 := by
  apply lucas_primality _ ((11 : ℕ) : ZMod 204061199)
  · exact pow_eq_one_of_powMod _ _ _ (by decide)
  · intro q hq hdvd
    have hfac : 204061199 - 1 = 2 * (11 * (23 * (107 * 3769))) := by norm_num
    have hcases : q = 2 ∨ q = 11 ∨ q = 23 ∨ q = 107 ∨ q = 3769 := by
      rw [hfac] at hdvd
      rcases (Nat.Prime.dvd_mul hq).mp hdvd with h | h
      · exact Or.inl ((Nat.prime_dvd_prime_iff_eq hq (by norm_num)).mp h)
      rcases (Nat.Prime.dvd_mul hq).mp h with h | h
      · exact Or.inr (Or.inl ((Nat.prime_dvd_prime_iff_eq hq (by norm_num)).mp h))
      rcases (Nat.Prime.dvd_mul hq).mp h with h | h
      · exact Or.inr (Or.inr (Or.inl ((Nat.prime_dvd_prime_iff_eq hq (by norm_num)).mp h)))
      rcases (Nat.Prime.dvd_mul hq).mp h with h | h
      · exact Or.inr (Or.inr (Or.inr (Or.inl ((Nat.prime_dvd_prime_iff_eq hq (by norm_num)).mp h))))
      · exact Or.inr (Or.inr (Or.inr (Or.inr ((Nat.prime_dvd_prime_iff_eq hq (by norm_num)).mp h))))
    rcases hcases with rfl | rfl | rfl | rfl | rfl
    all_goals exact pow_ne_one_of_powMod _ _ _ (by decide)

theorem prime_66417393611 : Nat.Prime 66417393611 := by
  apply lucas_primality _ ((6 : ℕ) : ZMod 66417393611)
  · exact pow_eq_one_of_powMod _ _ _ (by decide)
  · intro q hq hdvd
    have hfac : 66417393611 - 1 = 2 * (5 * (53 * (173 * (197 * 3677)))) := by decide
    have hcases : q = 2 ∨ q = 5 ∨ q = 53 ∨ q = 173 ∨ q = 197 ∨ q = 3677 := by
      rw [hfac] at hdvd
      rcases (Nat.Prime.dvd_mul hq).mp hdvd with h | h
      · exact Or.inl ((Nat.prime_dvd_prime_iff_eq hq (by norm_num)).mp h)
      rcases (Nat.Prime.dvd_mul hq).mp h with h | h
      · exact Or.inr (Or.inl ((Nat.prime_dvd_prime_iff_eq hq (by norm_num)).mp h))
      rcases (Nat.Prime.dvd_mul hq).mp h with h | h
      · exact Or.inr (Or.inr (Or.inl ((Nat.prime_dvd_prime_iff_eq hq (by norm_num)).mp h)))
      rcases (Nat.Prime.dvd_mul hq).mp h with h | h
      · exact Or.inr (Or.inr (Or.inr (Or.inl ((Nat.prime_dvd_prime_iff_eq hq (by norm_num)).mp h))))
      rcases (Nat.Prime.dvd_mul hq).mp h with h | h
      · exact Or.inr (Or.inr (Or.inr (Or.inr (Or.inl ((Nat.prime_dvd_prime_iff_eq hq (by norm_num)).mp h)))))
      · exact Or.inr (Or.inr (Or.inr (Or.inr (Or.inr ((Nat.prime_dvd_prime_iff_eq hq (by norm_num)).mp h)))))
    rcases hcases with rfl | rfl | rfl | rfl | rfl | rfl
    all_goals exact pow_ne_one_of_powMod _ _ _ (by decide)

theorem prime_34282281433 : Nat.Prime 34282281433 := by
  apply lucas_primality _ ((17 : ℕ) : ZMod 34282281433)
  · exact pow_eq_one_of_powMod _ _ _ (by decide)
  · intro q hq hdvd
    have hfac : 34282281433 - 1 = 2 ^ 3 * (3 * (7 * 204061199)) := by decide
    have hcases : q = 2 ∨ q = 3 ∨ q = 7 ∨ q = 204061199 := by
      rw [hfac] at hdvd
      rcases (Nat.Prime.dvd_mul hq).mp hdvd with h | h
      · exact Or.inl ((Nat.prime_dvd_prime_iff_eq hq (by norm_num)).mp (hq.dvd_of_dvd_pow h))
      rcases (Nat.Prime.dvd_mul hq).mp h with h | h
      · exact Or.inr (Or.inl ((Nat.prime_dvd_prime_iff_eq hq (by norm_num)).mp h))
      rcases (Nat.Prime.dvd_mul hq).mp h with h | h
      · exact Or.inr (Or.inr (Or.inl ((Nat.prime_dvd_prime_iff_eq hq (by norm_num)).mp h)))
      · exact Or.inr (Or.inr (Or.inr ((Nat.prime_dvd_prime_iff_eq hq prime_204061199).mp h)))
    rcases hcases with rfl | rfl | rfl | rfl
    all_goals exact pow_ne_one_of_powMod _ _ _ (by decide)

theorem prime_11290956913871 : Nat.Prime 11290956913871 := by
  apply lucas_primality _ ((13 : ℕ) : ZMod 11290956913871)
  · exact pow_eq_one_of_powMod _ _ _ (by decide)
  · intro q hq hdvd
    have hfac : 11290956913871 - 1 = 2 * (5 * (17 * 66417393611)) := by decide
    have hcases : q = 2 ∨ q = 5 ∨ q = 17 ∨ q = 66417393611 := by
      rw [hfac] at hdvd
      rcases (Nat.Prime.dvd_mul hq).mp hdvd with h | h
      · exact Or.inl ((Nat.prime_dvd_prime_iff_eq hq (by norm_num)).mp h)
      rcases (Nat.Prime.dvd_mul hq).mp h with h | h
      · exact Or.inr (Or.inl ((Nat.prime_dvd_prime_iff_eq hq (by norm_num)).mp h))
      rcases (Nat.Prime.dvd_mul hq).mp h with h | h
      · exact Or.inr (Or.inr (Or.inl ((Nat.prime_dvd_prime_iff_eq hq (by norm_num)).mp h)))
      · exact Or.inr (Or.inr (Or.inr ((Nat.prime_dvd_prime_iff_eq hq prime_66417393611).mp h)))
    rcases hcases with rfl | rfl | rfl | rfl
    all_goals exact pow_ne_one_of_powMod _ _ _ (by decide)

theorem prime_46076956964474543 : Nat.Prime 46076956964474543 := by
  apply lucas_primality _ ((5 : ℕ) : ZMod 46076956964474543)
  · exact pow_eq_one_of_powMod _ _ _ (by decide)
  · intro q hq hdvd
    have hfac : 46076956964474543 - 1 = 2 * (23 * (18169 * (78283 * 704251))) := by decide
    have hcases : q = 2 ∨ q = 23 ∨ q = 18169 ∨ q = 78283 ∨ q = 704251 := by
      rw [hfac] at hdvd
      rcases (Nat.Prime.dvd_mul hq).mp hdvd with h | h
      · exact Or.inl ((Nat.prime_dvd_prime_iff_eq hq (by norm_num)).mp h)
      rcases (Nat.Prime.dvd_mul hq).mp h with h | h
      · exact Or.inr (Or.inl ((Nat.prime_dvd_prime_iff_eq hq (by norm_num)).mp h))
      rcases (Nat.Prime.dvd_mul hq).mp h with h | h
      · exact Or.inr (Or.inr (Or.inl ((Nat.prime_dvd_prime_iff_eq hq (by norm_num)).mp h)))
      rcases (Nat.Prime.dvd_mul hq).mp h with h | h
      · exact Or.inr (Or.inr (Or.inr (Or.inl ((Nat.prime_dvd_prime_iff_eq hq (by norm_num)).mp h))))
      · exact Or.inr (Or.inr (Or.inr (Or.inr ((Nat.prime_dvd_prime_iff_eq hq (by norm_num)).mp h))))
    rcases hcases with rfl | rfl | rfl | rfl | rfl
    all_goals exact pow_ne_one_of_powMod _ _ _ (by decide)

theorem prime_Q2 : Nat.Prime 774023187263532362759620327192479577272145303 := by
  apply lucas_primality _ ((3 : ℕ) : ZMod 774023187263532362759620327192479577272145303)
  · exact pow_eq_one_of_powMod _ _ _ (by decide)
  · intro q hq hdvd
    have hfac : 774023187263532362759620327192479577272145303 - 1 =
        2 * (3 ^ 2 * (2411 * (34282281433 * (11290956913871 * 46076956964474543)))) := by decide
    have hcases : q = 2 ∨ q = 3 ∨ q = 2411 ∨ q = 34282281433 ∨ q = 11290956913871 ∨
        q = 46076956964474543 := by
      rw [hfac] at hdvd
      rcases (Nat.Prime.dvd_mul hq).mp hdvd with h | h
      · exact Or.inl ((Nat.prime_dvd_prime_iff_eq hq (by norm_num)).mp h)
      rcases (Nat.Prime.dvd_mul hq).mp h with h | h
      · exact Or.inr (Or.inl ((Nat.prime_dvd_prime_iff_eq hq (by norm_num)).mp (hq.dvd_of_dvd_pow h)))
      rcases (Nat.Prime.dvd_mul hq).mp h with h | h
      · exact Or.inr (Or.inr (Or.inl ((Nat.prime_dvd_prime_iff_eq hq (by norm_num)).mp h)))
      rcases (Nat.Prime.dvd_mul hq).mp h with h | h
      · exact Or.inr (Or.inr (Or.inr (Or.inl ((Nat.prime_dvd_prime_iff_eq hq prime_34282281433).mp h))))
      rcases (Nat.Prime.dvd_mul hq).mp h with h | h
      · exact Or.inr (Or.inr (Or.inr (Or.inr (Or.inl ((Nat.prime_dvd_prime_iff_eq hq prime_11290956913871).mp h)))))
      · exact Or.inr (Or.inr (Or.inr (Or.inr (Or.inr ((Nat.prime_dvd_prime_iff_eq hq prime_46076956964474543).mp h)))))
    rcases hcases with rfl | rfl | rfl | rfl | rfl | rfl
    all_goals exact pow_ne_one_of_powMod _ _ _ (by decide)

theorem prime_Q : Nat.Prime 835945042244614951780389953367877943453916927241 := by
  apply lucas_primality _ ((11 : ℕ) : ZMod 835945042244614951780389953367877943453916927241)
  · exact pow_eq_one_of_powMod _ _ _ (by decide)
  · intro q hq hdvd
    have hfac : 835945042244614951780389953367877943453916927241 - 1 =
        2 ^ 3 * (3 ^ 3 * (5 * 774023187263532362759620327192479577272145303)) := by decide
    have hcases : q = 2 ∨ q = 3 ∨ q = 5 ∨
        q = 774023187263532362759620327192479577272145303 := by
      rw [hfac] at hdvd
      rcases (Nat.Prime.dvd_mul hq).mp hdvd with h | h
      · exact Or.inl ((Nat.prime_dvd_prime_iff_eq hq (by norm_num)).mp (hq.dvd_of_dvd_pow h))
      rcases (Nat.Prime.dvd_mul hq).mp h with h | h
      · exact Or.inr (Or.inl ((Nat.prime_dvd_prime_iff_eq hq (by norm_num)).mp (hq.dvd_of_dvd_pow h)))
      rcases (Nat.Prime.dvd_mul hq).mp h with h | h
      · exact Or.inr (Or.inr (Or.inl ((Nat.prime_dvd_prime_iff_eq hq (by norm_num)).mp h)))
      · exact Or.inr (Or.inr (Or.inr ((Nat.prime_dvd_prime_iff_eq hq prime_Q2).mp h)))
    rcases hcases with rfl | rfl | rfl | rfl
    all_goals exact pow_ne_one_of_powMod _ _ _ (by decide)

theorem prime_P : Nat.Prime P := by
  apply lucas_primality _ ((6 : ℕ) : ZMod P)
  · exact pow_eq_one_of_powMod _ _ _ (by decide)
  · intro q hq hdvd
    have hfac : P - 1 = 2 * (3 * (5 ^ 2 * (17 * (257 * (641 * (1531 * (65537 * (490463 *
        (6700417 * 835945042244614951780389953367877943453916927241))))))))) := by decide
    have hcases : q = 2 ∨ q = 3 ∨ q = 5 ∨ q = 17 ∨ q = 257 ∨ q = 641 ∨ q = 1531 ∨
        q = 65537 ∨ q = 490463 ∨ q = 6700417 ∨
        q = 835945042244614951780389953367877943453916927241 := by
      rw [hfac] at hdvd
      rcases (Nat.Prime.dvd_mul hq).mp hdvd with h | h
      · exact Or.inl ((Nat.prime_dvd_prime_iff_eq hq (by norm_num)).mp h)
      rcases (Nat.Prime.dvd_mul hq).mp h with h | h
      · exact Or.inr (Or.inl ((Nat.prime_dvd_prime_iff_eq hq (by norm_num)).mp h))
      rcases (Nat.Prime.dvd_mul hq).mp h with h | h
      · exact Or.inr (Or.inr (Or.inl ((Nat.prime_dvd_prime_iff_eq hq (by norm_num)).mp (hq.dvd_of_dvd_pow h))))
      rcases (Nat.Prime.dvd_mul hq).mp h with h | h
      · exact Or.inr (Or.inr (Or.inr (Or.inl ((Nat.prime_dvd_prime_iff_eq hq (by norm_num)).mp h))))
      rcases (Nat.Prime.dvd_mul hq).mp h with h | h
      · exact Or.inr (Or.inr (Or.inr (Or.inr (Or.inl ((Nat.prime_dvd_prime_iff_eq hq (by norm_num)).mp h)))))
      rcases (Nat.Prime.dvd_mul hq).mp h with h | h
      · exact Or.inr (Or.inr (Or.inr (Or.inr (Or.inr (Or.inl ((Nat.prime_dvd_prime_iff_eq hq (by norm_num)).mp h))))))
      rcases (Nat.Prime.dvd_mul hq).mp h with h | h
      · exact Or.inr (Or.inr (Or.inr (Or.inr (Or.inr (Or.inr (Or.inl ((Nat.prime_dvd_prime_iff_eq hq (by norm_num)).mp h)))))))
      rcases (Nat.Prime.dvd_mul hq).mp h with h | h
      · exact Or.inr (Or.inr (Or.inr (Or.inr (Or.inr (Or.inr (Or.inr (Or.inl ((Nat.prime_dvd_prime_iff_eq hq (by norm_num)).mp h))))))))
      rcases (Nat.Prime.dvd_mul hq).mp h with h | h
      · exact Or.inr (Or.inr (Or.inr (Or.inr (Or.inr (Or.inr (Or.inr (Or.inr (Or.inl ((Nat.prime_dvd_prime_iff_eq hq (by norm_num)).mp h)))))))))
      rcases (Nat.Prime.dvd_mul hq).mp h with h | h
      · exact Or.inr (Or.inr (Or.inr (Or.inr (Or.inr (Or.inr (Or.inr (Or.inr (Or.inr (Or.inl ((Nat.prime_dvd_prime_iff_eq hq (by norm_num)).mp h))))))))))
      · exact Or.inr (Or.inr (Or.inr (Or.inr (Or.inr (Or.inr (Or.inr (Or.inr (Or.inr (Or.inr ((Nat.prime_dvd_prime_iff_eq hq prime_Q).mp h))))))))))
    rcases hcases with rfl | rfl | rfl | rfl | rfl | rfl | rfl | rfl | rfl | rfl | rfl
    all_goals exact pow_ne_one_of_powMod _ _ _ (by decide)


/-! ## The curve cubic has no root mod P -/

instance : NeZero P := ⟨by decide⟩

theorem mulT_eval (a : ZMod P) (h : a ^ 3 - 3 * a + (B : ZMod P) = 0)
    (t u : ZMod P × ZMod P × ZMod P) :
    evalT a (mulT t u) = evalT a t * evalT a u := by
  obtain ⟨t0, t1, t2⟩ := t
  obtain ⟨u0, u1, u2⟩ := u
  simp only [mulT, evalT]
  linear_combination (-(t1 * u2 + t2 * u1) - t2 * u2 * a) * h

theorem powT_eval (a : ZMod P) (h : a ^ 3 - 3 * a + (B : ZMod P) = 0) :
    ∀ (fuel : ℕ) (t : ZMod P × ZMod P × ZMod P) (e : ℕ), e ≤ fuel →
      evalT a (powT fuel t e) = (evalT a t) ^ e := by
  intro fuel
  induction fuel with
  | zero =>
    intro t e he
    have : e = 0 := Nat.le_zero.mp he
    subst this
    simp [powT, evalT]
  | succ f ih =>
    intro t e he
    by_cases h0 : e = 0
    · subst h0; simp [powT, evalT]
    · simp only [powT, h0, if_false]
      have hdiv : e / 2 ≤ f := by omega
      have hrec := ih (mulT t t) (e / 2) hdiv
      rw [mulT_eval a h] at hrec
      have hsq : (evalT a t * evalT a t) ^ (e / 2) = evalT a t ^ (2 * (e / 2)) := by
        rw [pow_mul, pow_two]
      by_cases hodd : e % 2 = 1
      · simp only [hodd, if_true]
        rw [mulT_eval a h, hrec, hsq, ← pow_succ']
        congr 1
        omega
      · simp only [hodd, if_false]
        rw [hrec, hsq]
        congr 1
        omega

theorem hT_eval (a : ZMod P) (h : a ^ 3 - 3 * a + (B : ZMod P) = 0) :
    evalT a hT = a ^ P := by
  have h2 := powT_eval a h P (0, 1, 0) P le_rfl
  have h3 : evalT a (0, 1, 0) = a := by simp [evalT]
  rw [h3] at h2
  exact h2

theorem cFinal_ne_zero : cFinal ≠ 0 := by decide

theorem zmod_cubic_no_root (a : ZMod P) : a ^ 3 - 3 * a + (B : ZMod P) ≠ 0 := by
  intro h
  haveI : Fact (Nat.Prime P) := ⟨prime_P⟩
  have hEq : evalT a hT = a := by rw [hT_eval a h, ZMod.pow_card]
  have hG : G2 * a ^ 2 + G1 * a + G0 = 0 := by
    simp only [evalT] at hEq
    simp only [G0, G1, G2]
    linear_combination hEq
  have hE1 : rc1 * a + rc0 = 0 := by
    simp only [rc1, rc0]
    linear_combination (G2 * a - G1) * hG - G2 ^ 2 * h
  have hc : cFinal = 0 := by
    simp only [cFinal]
    linear_combination (3 * rc1 ^ 2 - rc1 ^ 2 * a ^ 2 + rc1 * a * rc0 - rc0 ^ 2) * hE1 +
      rc1 ^ 3 * h
  exact absurd hc cFinal_ne_zero

theorem curve_poly_ne_zero (x : ℕ) :
    ((x : ℤ) ^ 3 - 3 * (x : ℤ) + (B : ℤ)) % (P : ℤ) ≠ 0 := by
  intro h
  have hdvd : (P : ℤ) ∣ ((x : ℤ) ^ 3 - 3 * (x : ℤ) + (B : ℤ)) := Int.dvd_of_emod_eq_zero h
  have hz : (((x : ℤ) ^ 3 - 3 * (x : ℤ) + (B : ℤ) : ℤ) : ZMod P) = 0 :=
    (ZMod.intCast_zmod_eq_zero_iff_dvd _ P).mpr hdvd
  push_cast at hz
  exact zmod_cubic_no_root (x : ZMod P) hz

/-! ## Byte-encoding lemmas -/

theorem fromBytesBE_foldl (l : List ℕ) (a : ℕ) :
    l.foldl (fun x b => x * 256 + b) a = a * 256 ^ l.length + fromBytesBE l := by
  induction l generalizing a with
  | nil => simp [fromBytesBE]
  | cons b t ih =>
    have h2 : fromBytesBE (b :: t) = b * 256 ^ t.length + fromBytesBE t := by
      show t.foldl (fun x c => x * 256 + c) (0 * 256 + b) = _
      rw [ih (0 * 256 + b)]
      ring
    show t.foldl (fun x c => x * 256 + c) (a * 256 + b) =
      a * 256 ^ (b :: t).length + fromBytesBE (b :: t)
    rw [ih (a * 256 + b), h2, List.length_cons]
    ring

theorem fromBytesBE_cons (b : ℕ) (t : List ℕ) :
    fromBytesBE (b :: t) = b * 256 ^ t.length + fromBytesBE t := by
  show (b :: t).foldl (fun x c => x * 256 + c) 0 = _
  rw [List.foldl_cons]
  simpa using fromBytesBE_foldl t b

theorem fromBytesBE_append (l1 l2 : List ℕ) :
    fromBytesBE (l1 ++ l2) = fromBytesBE l1 * 256 ^ l2.length + fromBytesBE l2 := by
  induction l1 with
  | nil => simp [fromBytesBE]
  | cons b t ih =>
    rw [List.cons_append, fromBytesBE_cons, ih, fromBytesBE_cons, List.length_append]
    ring

theorem fromBytesBE_replicate_zero (k : ℕ) : fromBytesBE (List.replicate k 0) = 0 := by
  induction k with
  | zero => rfl
  | succ m ih =>
    rw [List.replicate_succ, fromBytesBE_cons, ih]
    simp

theorem fromBytesBE_single (b : ℕ) : fromBytesBE [b] = b := by
  simp [fromBytesBE]

theorem natBytesAux_zero (fuel : ℕ) : natBytesAux fuel 0 = [] := by
  cases fuel <;> simp [natBytesAux]

theorem fromBytesBE_natBytesAux : ∀ (fuel n : ℕ), n ≤ fuel →
    fromBytesBE (natBytesAux fuel n) = n := by
  intro fuel
  induction fuel with
  | zero =>
    intro n hn
    have : n = 0 := Nat.le_zero.mp hn
    subst this
    simp [natBytesAux, fromBytesBE]
  | succ f ih =>
    intro n hn
    by_cases h0 : n = 0
    · subst h0; simp [natBytesAux, fromBytesBE]
    · have hdiv : n / 256 ≤ f := by omega
      simp only [natBytesAux, h0, if_false]
      rw [fromBytesBE_append, ih _ hdiv, fromBytesBE_single]
      simp
      omega

theorem natBytesAux_ne_nil_head : ∀ (fuel n : ℕ), n ≠ 0 → n ≤ fuel →
    natBytesAux fuel n ≠ [] ∧ (natBytesAux fuel n).headI ≠ 0 := by
  intro fuel
  induction fuel with
  | zero => intro n hn hle; omega
  | succ f ih =>
    intro n hn hle
    simp only [natBytesAux, hn, if_false]
    by_cases hq : n / 256 = 0
    · rw [hq, natBytesAux_zero]
      have hsmall : n < 256 := by omega
      have : n % 256 = n := Nat.mod_eq_of_lt hsmall
      simp [this, hn]
    · have hdiv : n / 256 ≤ f := by omega
      obtain ⟨hne, hhead⟩ := ih (n / 256) hq hdiv
      constructor
      · simp
      · cases hcase : natBytesAux f (n / 256) with
        | nil => exact absurd hcase hne
        | cons a t =>
          rw [hcase] at hhead
          simpa using hhead

theorem natBytesAux_length_le : ∀ (fuel n k : ℕ), n < 256 ^ k → n ≤ fuel →
    (natBytesAux fuel n).length ≤ k := by
  intro fuel
  induction fuel with
  | zero =>
    intro n k _ hle
    have : n = 0 := Nat.le_zero.mp hle
    subst this
    simp [natBytesAux]
  | succ f ih =>
    intro n k hk hle
    by_cases h0 : n = 0
    · subst h0; simp [natBytesAux]
    · simp only [natBytesAux, h0, if_false]
      have hkpos : k ≠ 0 := by
        intro hk0
        subst hk0
        simp at hk
        omega
      have hdiv : n / 256 < 256 ^ (k - 1) := by
        rw [Nat.div_lt_iff_lt_mul (by norm_num : 0 < 256)]
        calc n < 256 ^ k := hk
        _ = 256 ^ (k - 1) * 256 := by
            rw [← pow_succ]
            congr 1
            omega
      have := ih (n / 256) (k - 1) hdiv (by omega)
      simp only [List.length_append, List.length_cons, List.length_nil]
      omega

theorem fromBytesBE_natBytes (n : ℕ) : fromBytesBE (natBytes n) = n :=
  fromBytesBE_natBytesAux n n le_rfl

theorem natBytes_ne_nil {n : ℕ} (hn : n ≠ 0) : natBytes n ≠ [] :=
  (natBytesAux_ne_nil_head n n hn le_rfl).1

theorem natBytes_headI_ne_zero {n : ℕ} (hn : n ≠ 0) : (natBytes n).headI ≠ 0 :=
  (natBytesAux_ne_nil_head n n hn le_rfl).2

theorem natBytes_length_le {n k : ℕ} (h : n < 256 ^ k) : (natBytes n).length ≤ k :=
  natBytesAux_length_le n n k h le_rfl

/-! ## Claim theorems: serialization bugs, panics, error kinds, low-S, private keys -/

/-- C1.  The round-trip claim fails on the code: (5, y₅) is a valid P-256 point
(checked by `IsOnCurve`), yet parsing its compressed serialization does not
return it — the serializer left-aligns the minimal X bytes inside the 32-byte
field, so the parser reads back X·2^248 and recovers a different valid point. -/
theorem c1_compressed_roundtrip_fails_on_valid_point :
    IsOnCurve 5
      31468013646237722594854082025316614106172411895747863909393730389177298123724 = true ∧
    parsePubKeyCompressed (SerializePublicKeyCompressed 5
      31468013646237722594854082025316614106172411895747863909393730389177298123724) ≠
      PKResult.ok 5
        31468013646237722594854082025316614106172411895747863909393730389177298123724 ∧
    parsePubKeyCompressed (SerializePublicKeyCompressed 5
      31468013646237722594854082025316614106172411895747863909393730389177298123724) =
      PKResult.ok 2261564242916331941866620800950935700259179388000792266395655937654553313280
        71046014142767056243667599911044964469918081694522642853346132264268075986066 :=
  ⟨by decide, by decide, by decide⟩

/-- C2.  The compressed serialization of the valid point (5, y₅) is 33 bytes
with the correct tag, but X is padded with zeros on the right (left-aligned),
not encoded as the claimed left-zero-padded 32-byte big-endian field. -/
theorem c2_compressed_pads_right_not_left :
    IsOnCurve 5
      31468013646237722594854082025316614106172411895747863909393730389177298123724 = true ∧
    SerializePublicKeyCompressed 5
      31468013646237722594854082025316614106172411895747863909393730389177298123724 =
      2 :: (5 :: List.replicate 31 0) ∧
    SerializePublicKeyCompressed 5
      31468013646237722594854082025316614106172411895747863909393730389177298123724 ≠
      2 :: (List.replicate 31 0 ++ [5]) :=
  ⟨by decide, by decide, by decide⟩

/-- C3.  `parsePubKey` does not return a typed error on every input: a
single-byte input (the uncompressed tag byte alone) slices `pubKeyStr[1:33]`
out of range and panics.  Inputs of every length from 1 to 32 panic alike. -/
theorem c3_short_input_panics :
    parsePubKey [4] = PKResult.panic ∧ parsePubKey (List.replicate 32 0) = PKResult.panic :=
  ⟨by decide, by decide⟩

/-- C4 counterexample.  Empty input to the compressed parser does not produce
the empty-input error kind (it hits the fixed-length check first). -/
theorem c4_empty_compressed_is_not_emptyInput :
    parsePubKeyCompressed [] ≠ PKResult.err KeyError.emptyPubKey := by decide

/-- C4 amended.  Empty input yields the distinct empty-input error kind in the
uncompressed parser, but the byte-length error kind in the compressed parser. -/
theorem c4_empty_input_error_kinds :
    parsePubKey [] = PKResult.err KeyError.emptyPubKey ∧
    parsePubKeyCompressed [] = PKResult.err KeyError.badByteLen :=
  ⟨by decide, by decide⟩

/-- C8.  For every scalar s with 1 ≤ s ≤ N-1, exactly one of s and N-s is
low (at most ⌊N/2⌋). -/
theorem c8_lowS_totality (s : ℕ) (_h1 : 1 ≤ s) (_h2 : s ≤ N - 1) :
    Xor' (IsLowS s = true) (IsLowS (N - s) = true) := by
  have hNodd : N % 2 = 1 := by decide
  simp only [IsLowS, decide_eq_true_eq]
  unfold Xor'
  omega

theorem c8_lowS_totality_witness :
    (1 ≤ 1 ∧ 1 ≤ N - 1) ∧ Xor' (IsLowS 1 = true) (IsLowS (N - 1) = true) :=
  ⟨⟨le_rfl, by decide⟩, c8_lowS_totality 1 le_rfl (by decide)⟩

/-- C9.  For every in-range scalar the private-key serialization is exactly 32
bytes and decodes back to the scalar (so it is the left-zero-padded big-endian
form); the zero scalar serializes to 32 zero bytes. -/
theorem c9_private_key_fixed_width :
    (∀ d : ℕ, d < N →
      (SerializePrivateKey d).length = 32 ∧ fromBytesBE (SerializePrivateKey d) = d) ∧
    SerializePrivateKey 0 = List.replicate 32 0 := by
  constructor
  · intro d hd
    have hdlt : d < 256 ^ 32 := by
      have hN : N < 256 ^ 32 := by decide
      omega
    have hlen : (natBytes d).length ≤ 32 := natBytes_length_le hdlt
    constructor
    · simp only [SerializePrivateKey, paddedAppend, privateKeyECDSALength, List.nil_append,
        List.length_append, List.length_replicate]
      omega
    · simp only [SerializePrivateKey, paddedAppend, privateKeyECDSALength, List.nil_append]
      rw [fromBytesBE_append, fromBytesBE_replicate_zero, fromBytesBE_natBytes]
      simp
  · decide

theorem c9_private_key_fixed_width_witness :
    (5 : ℕ) < N ∧ (SerializePrivateKey 5).length = 32 ∧
      fromBytesBE (SerializePrivateKey 5) = 5 :=
  ⟨by decide, (c9_private_key_fixed_width.1 5 (by decide)).1,
    (c9_private_key_fixed_width.1 5 (by decide)).2⟩

/-! ## Claim C5: decompression parity -/

theorem modSqrt_lt {v p y : ℕ} (hp : 0 < p) (h : modSqrt v p = some y) : y < p := by
  simp only [modSqrt] at h
  split at h
  · simp at h
  · injection h with h2
    rw [← h2]
    exact powMod_lt _ _ _ hp

theorem isOnCurve_eq {x y : ℕ} (h : IsOnCurve x y = true) :
    x < P ∧ y < P ∧
      (y : ℤ) ^ 2 % (P : ℤ) = ((x : ℤ) ^ 3 - 3 * (x : ℤ) + (B : ℤ)) % (P : ℤ) := by
  simp only [IsOnCurve, Bool.and_eq_true, decide_eq_true_eq] at h
  exact ⟨h.1.1, h.1.2, h.2⟩

/-- C5.  Whenever the compressed parser succeeds, the parity of the returned Y
coordinate matches the tag byte: 0x02 gives an even Y, 0x03 an odd Y.  The
only conceivable exception, a recovered root 0 with tag 0x03, would need the
curve cubic to have a root mod P, which `curve_poly_ne_zero` excludes. -/
theorem c5_tag_parity (data : List ℕ) (x y : ℕ)
    (hok : parsePubKeyCompressed data = PKResult.ok x y) :
    (data.headI = 2 → y % 2 = 0) ∧ (data.headI = 3 → y % 2 = 1) := by
  unfold parsePubKeyCompressed at hok
  by_cases hL : data.length ≠ 1 + 32
  · rw [if_pos hL] at hok; simp at hok
  rw [if_neg hL] at hok
  by_cases hT : data.headI ≠ 2 ∧ data.headI ≠ 3
  · rw [if_pos hT] at hok; simp at hok
  rw [if_neg hT] at hok
  have htag2 : data.headI = 2 ∨ data.headI = 3 := by omega
  by_cases hX : P ≤ fromBytesBE (data.drop 1)
  · rw [if_pos hX] at hok; simp at hok
  rw [if_neg hX] at hok
  cases hms : modSqrt (polynomial (B : ℤ) (P : ℤ) (fromBytesBE (data.drop 1) : ℤ)).toNat P with
  | none => rw [hms] at hok; simp at hok
  | some y0 =>
    rw [hms] at hok
    simp only [] at hok
    have hy0lt : y0 < P := modSqrt_lt (by decide) hms
    by_cases hpar : y0 % 2 ≠ data.headI % 2
    · rw [if_pos hpar] at hok
      by_cases hcv : IsOnCurve (fromBytesBE (data.drop 1)) ((-(y0 : ℤ) % (P : ℤ)).toNat) = true
      · rw [if_pos hcv] at hok
        injection hok with hxeq hyeq
        by_cases hy00 : y0 = 0
        · subst hy00
          exfalso
          have hz : ((-((0 : ℕ) : ℤ)) % (P : ℤ)).toNat = 0 := by norm_num
          rw [hz] at hcv
          have hco := isOnCurve_eq hcv
          apply curve_poly_ne_zero (fromBytesBE (data.drop 1))
          rw [← hco.2.2]
          norm_num
        · have hyv : ((-(y0 : ℤ)) % (P : ℤ)).toNat = P - y0 := by
            have h1 : (-(y0 : ℤ)) % (P : ℤ) = ((P : ℤ) - (y0 : ℤ)) % (P : ℤ) := by
              conv_lhs => rw [show -(y0 : ℤ) = ((P : ℤ) - (y0 : ℤ)) + (P : ℤ) * (-1) by ring]
              rw [Int.add_mul_emod_self_left]
            have h2 : ((P : ℤ) - (y0 : ℤ)) % (P : ℤ) = (P : ℤ) - (y0 : ℤ) := by
              apply Int.emod_eq_of_lt <;> omega
            rw [h1, h2]
            omega
          rw [hyv] at hyeq
          subst hyeq
          have hPodd : P % 2 = 1 := by decide
          omega
      · rw [if_neg hcv] at hok; simp at hok
    · rw [if_neg hpar] at hok
      by_cases hcv : IsOnCurve (fromBytesBE (data.drop 1)) y0 = true
      · rw [if_pos hcv] at hok
        injection hok with hxeq hyeq
        subst hyeq
        omega
      · rw [if_neg hcv] at hok; simp at hok

theorem c5_tag_parity_witness :
    parsePubKeyCompressed (2 :: (List.replicate 31 0 ++ [5])) =
      PKResult.ok 5
        31468013646237722594854082025316614106172411895747863909393730389177298123724 ∧
    31468013646237722594854082025316614106172411895747863909393730389177298123724 % 2 = 0 :=
  ⟨by decide,
    (c5_tag_parity (2 :: (List.replicate 31 0 ++ [5])) 5
      31468013646237722594854082025316614106172411895747863909393730389177298123724
      (by decide)).1 rfl⟩

/-! ## Signature codec round-trip (claims C6, C7, C10) -/

theorem natBytes_length_pos {n : ℕ} (hn : n ≠ 0) : 1 ≤ (natBytes n).length := by
  cases hcase : natBytes n with
  | nil => exact absurd hcase (natBytes_ne_nil hn)
  | cons a t => simp

theorem parseLen_encodeLen (l : ℕ) (rest : List ℕ) :
    parseLen (encodeLen l ++ rest) = .ok (l, rest) := by
  by_cases h : l < 128
  · rw [encodeLen, if_pos h]
    show parseLen (l :: rest) = _
    simp only [parseLen]
    rw [if_pos h]
  · rw [encodeLen, if_neg h]
    show parseLen ((128 + (natBytes l).length) :: (natBytes l ++ rest)) = _
    have hln0 : l ≠ 0 := by omega
    have hlen1 : 1 ≤ (natBytes l).length := natBytes_length_pos hln0
    simp only [parseLen]
    rw [if_neg (by omega : ¬(128 + (natBytes l).length < 128))]
    simp only [Nat.add_sub_cancel_left]
    rw [if_neg (by omega : ¬((natBytes l).length = 0))]
    rw [if_neg (by simp only [List.length_append]; omega :
      ¬((natBytes l ++ rest).length < (natBytes l).length))]
    rw [List.take_left, List.drop_left]
    rw [if_neg (natBytes_headI_ne_zero hln0)]
    rw [fromBytesBE_natBytes]
    rw [if_neg (by omega : ¬(l < 128))]

theorem intContents_ok_decode (n : ℤ) (hn : 0 < n) :
    intOk (intContents n) = true ∧ decodeIntBE (intContents n) = n := by
  have hnn : ¬(n < 0) := by omega
  have hn0 : ¬(n = 0) := by omega
  have htn : n.toNat ≠ 0 := by omega
  rw [intContents, if_neg hnn, if_neg hn0]
  have hne := natBytes_ne_nil htn
  have hhead := natBytes_headI_ne_zero htn
  have hval : fromBytesBE (natBytes n.toNat) = n.toNat := fromBytesBE_natBytes _
  by_cases hh : 128 ≤ (natBytes n.toNat).headI
  · rw [if_pos hh]
    cases hcase : natBytes n.toNat with
    | nil => exact absurd hcase hne
    | cons b0 t =>
      rw [hcase] at hh hval
      constructor
      · simp only [intOk]
        have hb0 : (0 : ℕ) ≠ 255 := by omega
        simp only [List.headI] at hh
        simp
        omega
      · simp only [decodeIntBE]
        rw [if_neg (by simp only [List.headI]; omega : ¬(128 ≤ (0 :: b0 :: t).headI))]
        rw [fromBytesBE_cons]
        simp only [zero_mul, zero_add]
        rw [hval]
        omega
  · rw [if_neg hh]
    cases hcase : natBytes n.toNat with
    | nil => exact absurd hcase hne
    | cons b0 t =>
      rw [hcase] at hh hhead hval
      simp only [List.headI] at hh hhead
      constructor
      · cases t with
        | nil => simp [intOk]
        | cons b1 t2 =>
          simp only [intOk]
          simp
          omega
      · simp only [decodeIntBE]
        rw [if_neg (by simp only [List.headI]; omega : ¬(128 ≤ (b0 :: t).headI))]
        rw [hval]
        omega


theorem parseIntElem_encodeIntElem (n : ℤ) (hn : 0 < n) (rest : List ℕ) :
    parseIntElem (encodeIntElem n ++ rest) = .ok (n, rest) := by
  obtain ⟨hok, hdec⟩ := intContents_ok_decode n hn
  have hassoc : encodeIntElem n ++ rest =
      2 :: (encodeLen (intContents n).length ++ (intContents n ++ rest)) := by
    simp [encodeIntElem]
  rw [hassoc]
  simp only [parseIntElem, parseLen_encodeLen]
  rw [if_neg (by omega : ¬((2 : ℕ) ≠ 2))]
  rw [if_neg (by simp only [List.length_append]; omega :
    ¬((intContents n ++ rest).length < (intContents n).length))]
  rw [List.take_left, List.drop_left, hok]
  rw [if_pos rfl, hdec]

theorem decodeSig_marshal (r s : ℤ) (hr : 0 < r) (hs : 0 < s) (extra : List ℕ) :
    decodeSig (MarshalECDSASignature r s ++ extra) = .ok (r, s, extra) := by
  have hassoc : MarshalECDSASignature r s ++ extra =
      48 :: (encodeLen (encodeIntElem r ++ encodeIntElem s).length ++
        ((encodeIntElem r ++ encodeIntElem s) ++ extra)) := by
    simp [MarshalECDSASignature]
  rw [hassoc]
  simp only [decodeSig, parseLen_encodeLen]
  rw [if_neg (by omega : ¬((48 : ℕ) ≠ 48))]
  rw [if_neg (by simp only [List.length_append]; omega :
    ¬(((encodeIntElem r ++ encodeIntElem s) ++ extra).length <
      (encodeIntElem r ++ encodeIntElem s).length))]
  rw [List.take_left, List.drop_left]
  rw [parseIntElem_encodeIntElem r hr]
  simp only []
  have hnil : encodeIntElem s = encodeIntElem s ++ [] := by simp
  conv_lhs => rw [hnil]
  rw [parseIntElem_encodeIntElem s hs]

/-- C6.  Decoding an encoded signature returns the pair unchanged, for every
pair of strictly positive scalars. -/
theorem c6_signature_roundtrip (r s : ℤ) (hr : 0 < r) (hs : 0 < s) :
    UnmarshalECDSASignature (MarshalECDSASignature r s) = .ok (r, s) := by
  have h := decodeSig_marshal r s hr hs []
  rw [List.append_nil] at h
  simp only [UnmarshalECDSASignature, h]
  rw [if_neg (by omega : ¬(r ≤ 0)), if_neg (by omega : ¬(s ≤ 0))]

theorem c6_signature_roundtrip_witness :
    (0 : ℤ) < 128 ∧ (0 : ℤ) < 1 ∧
      UnmarshalECDSASignature (MarshalECDSASignature 128 1) = .ok (128, 1) :=
  ⟨by norm_num, by norm_num, c6_signature_roundtrip 128 1 (by norm_num) (by norm_num)⟩

/-- C10.  Bytes trailing a well-formed signature encoding are ignored. -/
theorem c10_trailing_bytes_ignored (r s : ℤ) (hr : 0 < r) (hs : 0 < s) (extra : List ℕ) :
    UnmarshalECDSASignature (MarshalECDSASignature r s ++ extra) = .ok (r, s) := by
  have h := decodeSig_marshal r s hr hs extra
  simp only [UnmarshalECDSASignature, h]
  rw [if_neg (by omega : ¬(r ≤ 0)), if_neg (by omega : ¬(s ≤ 0))]

theorem c10_trailing_bytes_ignored_witness :
    (0 : ℤ) < 2 ∧ (0 : ℤ) < 3 ∧
      UnmarshalECDSASignature (MarshalECDSASignature 2 3 ++ [9, 9, 9]) = .ok (2, 3) :=
  ⟨by norm_num, by norm_num, c10_trailing_bytes_ignored 2 3 (by norm_num) (by norm_num) [9, 9, 9]⟩

/-- C7.  A successfully unmarshalled signature always has strictly positive
components; a decoded pair with a non-positive component is rejected, and a
decode failure propagates as a typed decode error. -/
theorem c7_nonpositive_rejected :
    (∀ raw r s, UnmarshalECDSASignature raw = .ok (r, s) → 0 < r ∧ 0 < s) ∧
    (∀ raw r s rest, decodeSig raw = .ok (r, s, rest) → r ≤ 0 ∨ s ≤ 0 →
      ∃ e, UnmarshalECDSASignature raw = .error e) ∧
    (∀ raw e, decodeSig raw = .error e →
      UnmarshalECDSASignature raw = .error (.decodeFailed e)) := by
  refine ⟨?_, ?_, ?_⟩
  · intro raw r s hok
    unfold UnmarshalECDSASignature at hok
    cases hds : decodeSig raw with
    | error e => rw [hds] at hok; simp at hok
    | ok v =>
      obtain ⟨r0, s0, rest0⟩ := v
      rw [hds] at hok
      simp only [] at hok
      by_cases hr0 : r0 ≤ 0
      · rw [if_pos hr0] at hok; simp at hok
      · rw [if_neg hr0] at hok
        by_cases hs0 : s0 ≤ 0
        · rw [if_pos hs0] at hok; simp at hok
        · rw [if_neg hs0] at hok
          injection hok with hpair
          injection hpair with h1 h2
          omega
  · intro raw r s rest hds hneg
    unfold UnmarshalECDSASignature
    rw [hds]
    simp only []
    by_cases hr0 : r ≤ 0
    · rw [if_pos hr0]
      exact ⟨_, rfl⟩
    · rw [if_neg hr0]
      rw [if_pos (by omega : s ≤ 0)]
      exact ⟨_, rfl⟩
  · intro raw e hds
    unfold UnmarshalECDSASignature
    rw [hds]

theorem c7_nonpositive_rejected_witness :
    (0 : ℤ) < 1 ∧ (0 : ℤ) < 1 :=
  c7_nonpositive_rejected.1 (MarshalECDSASignature 1 1) 1 1 (by rfl)

end Secp256r1
